import Mathlib

/-!
Verification of the epoch-timestamp replacement core of the `nail` repository
(src/src/lib.rs), as a shallow embedding over byte lists (bytes as `Nat`).

The scanner `replace_epoch_timestamps_in_buffer` walks a byte buffer,
accumulates maximal runs of ASCII digits, and when a run is terminated
(by a non-digit byte, or by `end_of_input = true` at the end of the buffer)
and has length exactly 13 or exactly 10 it is replaced by a bracketed UTC
date-time string produced by `append_epoch_timestamp`; the formatting and
calendar arithmetic of the external `chrono` crate is modelled by
`utcTimestampDisplay` below.
-/

namespace Nail

/-- Byte values of an ASCII string literal, used to state concrete scenarios. -/
def strBytes (s : String) : List Nat := s.toList.map Char.toNat

/-- Rust `u8::is_ascii_digit`: the byte is one of b'0'..=b'9' (48..=57). -/
def is_ascii_digit (b : Nat) : Bool := 48 ≤ b && b ≤ 57

/-- `is_epoch_millisecond_timestamp` from src/src/lib.rs: the accumulator
length equals `DIGITS_IN_EPOCH_MILLISECOND_TIMESTAMP` (13). -/
def is_epoch_millisecond_timestamp (acc : List Nat) : Bool := acc.length == 13

/-- `is_epoch_second_timestamp` from src/src/lib.rs: the accumulator length
equals `DIGITS_IN_EPOCH_SECOND_TIMESTAMP` (10). -/
def is_epoch_second_timestamp (acc : List Nat) : Bool := acc.length == 10

/-- ASCII decimal digits of `n / 10^k`-style peeling, most significant first;
fuel-driven so the recursion is structural. -/
def natDigitsAux : Nat → Nat → List Nat → List Nat
  | 0, _, ds => ds
  | fuel + 1, n, ds => if n = 0 then ds else natDigitsAux fuel (n / 10) ((n % 10 + 48) :: ds)

/-- ASCII decimal representation of `n` (no sign, `0` rendered as "0"). -/
def natDigits (n : Nat) : List Nat := if n = 0 then [48] else natDigitsAux n n []

/-- Zero-padded decimal of width `w` (Rust format `{:0w}` for a non-negative
value), as used by chrono's date/time rendering. -/
def padNum (w n : Nat) : List Nat :=
  List.replicate (w - (natDigits n).length) 48 ++ natDigits n

/-- Modelled from the external `chrono` crate used by src/src/lib.rs:
the proleptic Gregorian civil date `(year, month, day)` of the day number
`days` counted from 1970-01-01 (non-negative days only, which covers every
value reachable from a 10- or 13-digit accumulator). -/
def civilFromDays (days : Nat) : Nat × Nat × Nat :=
  let z := days + 719468
  let era := z / 146097
  let doe := z % 146097
  let yoe := (doe - doe / 1460 + doe / 36524 - doe / 146096) / 365
  let doy := doe - (365 * yoe + yoe / 4 - yoe / 100)
  let mp := (5 * doy + 2) / 153
  let d := doy - (153 * mp + 2) / 5 + 1
  let m := if mp < 10 then mp + 3 else mp - 9
  (if m ≤ 2 then yoe + era * 400 + 1 else yoe + era * 400, m, d)

/-- Modelled from chrono's `Display` for `NaiveDate`: `YYYY-MM-DD`,
four-digit zero-padded year when the year is at most 9999, otherwise a
leading plus sign and five-digit padding. -/
def formatDate (y m d : Nat) : List Nat :=
  (if y ≤ 9999 then padNum 4 y else 43 :: padNum 5 y) ++
    45 :: (padNum 2 m ++ 45 :: padNum 2 d)

/-- Modelled from chrono's `Display` for `NaiveTime`: `HH:MM:SS`, followed by
a fractional part only when the nanosecond component is non-zero — three
digits when it is a whole number of milliseconds, six when a whole number of
microseconds, nine otherwise. -/
def formatTime (sod nano : Nat) : List Nat :=
  padNum 2 (sod / 3600) ++ 58 :: (padNum 2 (sod % 3600 / 60) ++ 58 :: padNum 2 (sod % 60)) ++
    (if nano = 0 then []
     else if nano % 1000000 = 0 then 46 :: padNum 3 (nano / 1000000)
     else if nano % 1000 = 0 then 46 :: padNum 6 (nano / 1000)
     else 46 :: padNum 9 nano)

/-- Modelled from chrono: the `Display` rendering of
`Utc.timestamp(seconds, nano)` — date, a space, time, a space, `UTC`. -/
def utcTimestampDisplay (seconds nano : Nat) : List Nat :=
  let c := civilFromDays (seconds / 86400)
  formatDate c.1 c.2.1 c.2.2 ++ 32 :: (formatTime (seconds % 86400) nano ++ [32, 85, 84, 67])

/-- One step of the digit-parsing loop of `append_epoch_timestamp` in
src/src/lib.rs: `timestamp * 10 + (next - 48)`. -/
def parseStep (t d : Nat) : Nat := t * 10 + (d - 48)

/-- The digit-parsing loop of `append_epoch_timestamp` in src/src/lib.rs:
the accumulator is reversed and popped from the back, so the digits are
consumed in their original order. -/
def parseAccumulator (acc : List Nat) : Nat :=
  acc.foldl parseStep 0

/-- `append_epoch_timestamp` from src/src/lib.rs restricted to the reachable
lengths 10 and 13 (the `_ => panic!` arms are unreachable from the scanner,
see the checked variant below): parse the accumulator, split it into whole
seconds and a nanosecond remainder according to the digit count, and render
`[` ++ chrono display ++ `]`. The accumulator is cleared by the callee; in
this functional embedding the caller simply continues with `[]`. -/
def append_epoch_timestamp (acc : List Nat) : List Nat :=
  let timestamp := parseAccumulator acc
  let nanos := if acc.length = 13 then timestamp % 1000 * 1000000 else 0
  let seconds := if acc.length = 13 then timestamp / 1000 else timestamp
  (91 :: utcTimestampDisplay seconds nanos) ++ [93]

/-- `ReplacementResult` from src/src/lib.rs. -/
structure ReplacementResult where
  data : List Nat
  left_over_data : Nat
deriving DecidableEq, Repr

/-- One iteration of the scanning loop of `replace_epoch_timestamps_in_buffer`
(src/src/lib.rs lines 52-64) on the state (output so far, digit accumulator):
a digit byte is pushed onto the accumulator; on a non-digit byte, if the
accumulator has length 13 or 10 the formatted timestamp is appended to the
output and the accumulator cleared, and in every case the non-digit byte
itself is then pushed onto the output. -/
def scanStep (s : List Nat × List Nat) (b : Nat) : List Nat × List Nat :=
  if is_ascii_digit b then (s.1, s.2 ++ [b])
  else if is_epoch_millisecond_timestamp s.2 || is_epoch_second_timestamp s.2 then
    (s.1 ++ append_epoch_timestamp s.2 ++ [b], [])
  else (s.1 ++ [b], s.2)

/-- The full scanning loop over a chunk, starting from empty output and an
empty accumulator. -/
def scanChunk (input : List Nat) : List Nat × List Nat :=
  input.foldl scanStep ([], [])

/-- The end-of-loop step of `replace_epoch_timestamps_in_buffer`
(src/src/lib.rs lines 65-71): when `end_of_input` is true and the accumulator
has length 13 or 10, emit it as a timestamp and clear it. -/
def finalize (s : List Nat × List Nat) (eoi : Bool) : List Nat × List Nat :=
  if eoi && (is_epoch_millisecond_timestamp s.2 || is_epoch_second_timestamp s.2) then
    (s.1 ++ append_epoch_timestamp s.2, [])
  else s

/-- `replace_epoch_timestamps_in_buffer` from src/src/lib.rs: scan the first
`input_length` bytes, finalize, and return the output with the accumulator
length as `left_over_data` — except that when the output vector is empty the
function returns a copy of the ENTIRE input buffer instead
(src/src/lib.rs lines 73-83). -/
def replace_epoch_timestamps_in_buffer
    (input : List Nat) (input_length : Nat) (eoi : Bool) : ReplacementResult :=
  let s := finalize (scanChunk (input.take input_length)) eoi
  if s.1.length ≠ 0 then ⟨s.1, s.2.length⟩ else ⟨input, s.2.length⟩

/-- `replace_epoch_timestamps` from src/src/lib.rs: the whole slice is the
buffer. -/
def replace_epoch_timestamps (input : List Nat) (eoi : Bool) : ReplacementResult :=
  replace_epoch_timestamps_in_buffer input input.length eoi

/-- One step of the digit-parsing loop with its implicit failure conditions
made explicit: `none` when `next - 48` would underflow the `u8` subtraction
(byte value below 48) and when `timestamp * 10 + digit` would overflow the
64-bit signed `timestamp`. -/
def parseStepChecked (o : Option Nat) (d : Nat) : Option Nat :=
  o.bind fun t =>
    if d < 48 then none
    else if 2 ^ 63 ≤ parseStep t d then none
    else some (parseStep t d)

/-- The digit-parsing loop of `append_epoch_timestamp` with failures explicit. -/
def parseAccumulatorChecked (acc : List Nat) : Option Nat :=
  acc.foldl parseStepChecked (some 0)

/-- `append_epoch_timestamp` with every possible failure made explicit:
the parse checks, the two `panic!("Cannot handle .. digits")` arms for digit
counts other than 13 and 10, and the `as u32` cast of the nanosecond value
(`none` when the value does not fit in 32 bits). -/
def append_epoch_timestamp_checked (acc : List Nat) : Option (List Nat) :=
  (parseAccumulatorChecked acc).bind fun timestamp =>
    (match acc.length with
      | 13 =>
          if timestamp % 1000 * 1000000 < 2 ^ 32 then some (timestamp % 1000 * 1000000)
          else none
      | 10 => some 0
      | _ => none).bind fun nanos =>
      (match acc.length with
        | 13 => some (timestamp / 1000)
        | 10 => some timestamp
        | _ => none).bind fun seconds =>
        some ((91 :: utcTimestampDisplay seconds nanos) ++ [93])

/-- `scanStep` with the failure conditions of the formatter threaded through. -/
def scanStepChecked (s : List Nat × List Nat) (b : Nat) : Option (List Nat × List Nat) :=
  if is_ascii_digit b then some (s.1, s.2 ++ [b])
  else if is_epoch_millisecond_timestamp s.2 || is_epoch_second_timestamp s.2 then
    (append_epoch_timestamp_checked s.2).bind fun ts => some (s.1 ++ ts ++ [b], [])
  else some (s.1 ++ [b], s.2)

/-- The scanning loop with failures threaded through `Option`. -/
def scanFoldStepChecked (o : Option (List Nat × List Nat)) (b : Nat) :
    Option (List Nat × List Nat) :=
  o.bind fun s => scanStepChecked s b

/-- `finalize` with the failure conditions of the formatter threaded through. -/
def finalizeChecked (s : List Nat × List Nat) (eoi : Bool) :
    Option (List Nat × List Nat) :=
  if eoi && (is_epoch_millisecond_timestamp s.2 || is_epoch_second_timestamp s.2) then
    (append_epoch_timestamp_checked s.2).bind fun ts => some (s.1 ++ ts, [])
  else some s

/-- `replace_epoch_timestamps` with every implicit failure of the Rust code
made explicit; the safety claim is that this always returns `some` of the
total function's result. -/
def replace_epoch_timestamps_checked (input : List Nat) (eoi : Bool) :
    Option ReplacementResult :=
  (input.foldl scanFoldStepChecked (some ([], []))).bind fun s =>
    (finalizeChecked s eoi).bind fun t =>
      some (if t.1.length ≠ 0 then ⟨t.1, t.2.length⟩ else ⟨input, t.2.length⟩)

/-- The last `n` bytes of a buffer: the leftover bytes a stream driver
recovers from a chunk after a call reporting `n` left-over bytes. -/
def takeLast (n : Nat) (xs : List Nat) : List Nat := xs.drop (xs.length - n)

/-- A stream driver following the spec's chunking contract: feed the chunks
in order, prepend the previous call's leftover bytes onto the next chunk,
pass `end_of_input = true` only on the final chunk, and concatenate the
returned output bytes. -/
def processChunks (carry : List Nat) : List (List Nat) → List Nat
  | [] => []
  | c :: [] => (replace_epoch_timestamps (carry ++ c) true).data
  | c :: c2 :: rest =>
      (replace_epoch_timestamps (carry ++ c) false).data ++
        processChunks
          (takeLast (replace_epoch_timestamps (carry ++ c) false).left_over_data (carry ++ c))
          (c2 :: rest)

/-- The side condition under which the chunked protocol reproduces the
single-call result: every non-final call emits at least one scanned output
byte (so the whole-buffer-copy fallback branch is not taken) and its
unresolved accumulator coincides with the trailing leftover bytes of that
call's input; the final call's finalized output is also non-empty. -/
def chunksOk (carry : List Nat) : List (List Nat) → Bool
  | [] => carry == []
  | c :: [] => !((finalize (scanChunk (carry ++ c)) true).1 == [])
  | c :: c2 :: rest =>
      !((scanChunk (carry ++ c)).1 == []) &&
        (takeLast (scanChunk (carry ++ c)).2.length (carry ++ c) ==
          (scanChunk (carry ++ c)).2) &&
        chunksOk (scanChunk (carry ++ c)).2 (c2 :: rest)

theorem cons_append_ne_nil (x : Nat) (X Y : List Nat) : (x :: X) ++ Y ≠ [] := by simp

theorem append_epoch_timestamp_ne_nil (acc : List Nat) : append_epoch_timestamp acc ≠ [] :=
  cons_append_ne_nil _ _ _

theorem scanStep_digit (s : List Nat × List Nat) (b : Nat) (hd : is_ascii_digit b = true) :
    scanStep s b = (s.1, s.2 ++ [b]) := by
  unfold scanStep
  simp [hd]

theorem scanStep_emit (s : List Nat × List Nat) (b : Nat) (hd : is_ascii_digit b = false)
    (ht : (is_epoch_millisecond_timestamp s.2 || is_epoch_second_timestamp s.2) = true) :
    scanStep s b = (s.1 ++ append_epoch_timestamp s.2 ++ [b], []) := by
  unfold scanStep
  generalize append_epoch_timestamp s.2 = ts
  simp [hd, ht]

theorem scanStep_copy (s : List Nat × List Nat) (b : Nat) (hd : is_ascii_digit b = false)
    (ht : (is_epoch_millisecond_timestamp s.2 || is_epoch_second_timestamp s.2) = false) :
    scanStep s b = (s.1 ++ [b], s.2) := by
  unfold scanStep
  simp [hd, ht]

theorem scanStep_shift (o a : List Nat) (b : Nat) :
    scanStep (o, a) b = (o ++ (scanStep ([], a) b).1, (scanStep ([], a) b).2) := by
  cases hd : is_ascii_digit b
  · cases ht : is_epoch_millisecond_timestamp a || is_epoch_second_timestamp a
    · rw [scanStep_copy (o, a) b hd ht, scanStep_copy ([], a) b hd ht]
      simp
    · rw [scanStep_emit (o, a) b hd ht, scanStep_emit ([], a) b hd ht]
      generalize append_epoch_timestamp a = ts
      simp [List.append_assoc]
  · rw [scanStep_digit (o, a) b hd, scanStep_digit ([], a) b hd]
    simp

theorem foldl_scanStep_shift : ∀ (xs : List Nat) (o a : List Nat),
    List.foldl scanStep (o, a) xs =
      (o ++ (List.foldl scanStep ([], a) xs).1, (List.foldl scanStep ([], a) xs).2) := by
  intro xs
  induction xs with
  | nil => intro o a; simp
  | cons x xs ih =>
      intro o a
      simp only [List.foldl_cons]
      rw [scanStep_shift o a x,
        ih (o ++ (scanStep ([], a) x).1) ((scanStep ([], a) x).2),
        scanStep_shift [] a x]
      simp only [List.nil_append]
      rw [ih ((scanStep ([], a) x).1) ((scanStep ([], a) x).2)]
      simp [List.append_assoc]

theorem foldl_scanStep_digits : ∀ (ds : List Nat) (o a : List Nat),
    (∀ b ∈ ds, is_ascii_digit b = true) →
    List.foldl scanStep (o, a) ds = (o, a ++ ds) := by
  intro ds
  induction ds with
  | nil => intro o a _; simp
  | cons d ds ih =>
      intro o a h
      have hd : is_ascii_digit d = true := h d (by simp)
      have hs : scanStep (o, a) d = (o, a ++ [d]) := scanStep_digit (o, a) d hd
      simp only [List.foldl_cons, hs]
      rw [ih o (a ++ [d]) (fun b hb => h b (by simp [hb]))]
      simp

theorem foldl_scanStep_acc_digits : ∀ (xs : List Nat) (o a : List Nat),
    (∀ b ∈ a, is_ascii_digit b = true) →
    ∀ b ∈ (List.foldl scanStep (o, a) xs).2, is_ascii_digit b = true := by
  intro xs
  induction xs with
  | nil => intro o a ha; simpa using ha
  | cons x xs ih =>
      intro o a ha
      simp only [List.foldl_cons]
      cases hd : is_ascii_digit x
      · cases ht : is_epoch_millisecond_timestamp a || is_epoch_second_timestamp a
        · have hs : scanStep (o, a) x = (o ++ [x], a) := scanStep_copy (o, a) x hd ht
          rw [hs]
          exact ih (o ++ [x]) a ha
        · have hs : scanStep (o, a) x = (o ++ append_epoch_timestamp a ++ [x], []) :=
            scanStep_emit (o, a) x hd ht
          rw [hs]
          exact ih _ [] (by simp)
      · have hs : scanStep (o, a) x = (o, a ++ [x]) := scanStep_digit (o, a) x hd
        rw [hs]
        refine ih o (a ++ [x]) ?_
        intro b hb
        rcases List.mem_append.mp hb with h | h
        · exact ha b h
        · simp only [List.mem_singleton] at h
          subst h
          exact hd

theorem scanStep_nondigit_emits (a : List Nat) (x : Nat) (hd : is_ascii_digit x = false) :
    (scanStep ([], a) x).1 ≠ [] := by
  cases ht : is_epoch_millisecond_timestamp a || is_epoch_second_timestamp a
  · rw [scanStep_copy ([], a) x hd ht]
    simp
  · rw [scanStep_emit ([], a) x hd ht]
    generalize append_epoch_timestamp a = ts
    simp

theorem foldl_scanStep_emitted_nil : ∀ (xs a : List Nat),
    (List.foldl scanStep ([], a) xs).1 = [] →
    (List.foldl scanStep ([], a) xs).2 = a ++ xs := by
  intro xs
  induction xs with
  | nil => intro a _; simp
  | cons x xs ih =>
      intro a h
      cases hd : is_ascii_digit x
      · exfalso
        rw [List.foldl_cons] at h
        have h2 := foldl_scanStep_shift xs (scanStep ([], a) x).1 (scanStep ([], a) x).2
        rw [Prod.mk.eta] at h2
        rw [h2] at h
        simp only [List.append_eq_nil] at h
        exact scanStep_nondigit_emits a x hd h.1
      · have hs : scanStep ([], a) x = ([], a ++ [x]) := scanStep_digit ([], a) x hd
        simp only [List.foldl_cons, hs] at h ⊢
        rw [ih (a ++ [x]) h]
        simp

theorem finalize_false (s : List Nat × List Nat) : finalize s false = s := by
  unfold finalize
  simp

theorem finalize_nil_acc (o : List Nat) (e : Bool) : finalize (o, []) e = (o, []) := by
  unfold finalize
  simp [is_epoch_millisecond_timestamp, is_epoch_second_timestamp]

theorem finalize_emitted_nil (s : List Nat × List Nat) (e : Bool)
    (h : (finalize s e).1 = []) : finalize s e = s ∧ s.1 = [] := by
  revert h
  unfold finalize
  generalize hts : append_epoch_timestamp s.2 = ts
  cases he : e && (is_epoch_millisecond_timestamp s.2 || is_epoch_second_timestamp s.2)
  · intro h
    simp only [Bool.false_eq_true, if_false] at h ⊢
    exact ⟨by trivial, h⟩
  · intro h
    simp only [if_true] at h ⊢
    exact absurd (List.append_eq_nil.mp h).2 (hts ▸ append_epoch_timestamp_ne_nil s.2)

theorem replace_eq (input : List Nat) (eoi : Bool) :
    replace_epoch_timestamps input eoi =
      if (finalize (scanChunk input) eoi).1.length ≠ 0 then
        ⟨(finalize (scanChunk input) eoi).1, (finalize (scanChunk input) eoi).2.length⟩
      else ⟨input, (finalize (scanChunk input) eoi).2.length⟩ := by
  unfold replace_epoch_timestamps replace_epoch_timestamps_in_buffer
  rw [List.take_length]

theorem replace_of_emitted_ne_nil (input : List Nat) (eoi : Bool)
    (h : (finalize (scanChunk input) eoi).1 ≠ []) :
    replace_epoch_timestamps input eoi =
      ⟨(finalize (scanChunk input) eoi).1, (finalize (scanChunk input) eoi).2.length⟩ := by
  rw [replace_eq]
  rw [if_pos (by simpa [List.length_eq_zero] using h)]

theorem scanChunk_append_digits (xs ds : List Nat)
    (hds : ∀ b ∈ ds, is_ascii_digit b = true) :
    scanChunk (xs ++ ds) = ((scanChunk xs).1, (scanChunk xs).2 ++ ds) := by
  unfold scanChunk
  rw [List.foldl_append]
  exact foldl_scanStep_digits ds (List.foldl scanStep ([], []) xs).1
    (List.foldl scanStep ([], []) xs).2 hds

theorem finalize_shift (o x a : List Nat) (e : Bool) :
    finalize (o ++ x, a) e = (o ++ (finalize (x, a) e).1, (finalize (x, a) e).2) := by
  unfold finalize
  generalize append_epoch_timestamp a = ts
  cases he : e && (is_epoch_millisecond_timestamp a || is_epoch_second_timestamp a)
  · simp [he]
  · simp [he, List.append_assoc]

theorem replace_in_buffer_eq (input : List Nat) (len : Nat) (eoi : Bool) :
    replace_epoch_timestamps_in_buffer input len eoi =
      if (finalize (scanChunk (List.take len input)) eoi).1.length ≠ 0 then
        ⟨(finalize (scanChunk (List.take len input)) eoi).1,
          (finalize (scanChunk (List.take len input)) eoi).2.length⟩
      else ⟨input, (finalize (scanChunk (List.take len input)) eoi).2.length⟩ := rfl

theorem timestamp_pred_of_len10 (a : List Nat) (h : a.length = 10) :
    (is_epoch_millisecond_timestamp a || is_epoch_second_timestamp a) = true := by
  simp [is_epoch_millisecond_timestamp, is_epoch_second_timestamp, h]

theorem timestamp_pred_of_len13 (a : List Nat) (h : a.length = 13) :
    (is_epoch_millisecond_timestamp a || is_epoch_second_timestamp a) = true := by
  simp [is_epoch_millisecond_timestamp, is_epoch_second_timestamp, h]

theorem append_epoch_timestamp_sec (acc : List Nat) (h : acc.length = 10) :
    append_epoch_timestamp acc =
      (91 :: utcTimestampDisplay (parseAccumulator acc) 0) ++ [93] := by
  unfold append_epoch_timestamp
  rw [h]
  exact rfl

theorem append_epoch_timestamp_ms (acc : List Nat) (h : acc.length = 13) :
    append_epoch_timestamp acc =
      (91 :: utcTimestampDisplay (parseAccumulator acc / 1000)
        (parseAccumulator acc % 1000 * 1000000)) ++ [93] := by
  unfold append_epoch_timestamp
  rw [h]
  exact rfl

theorem parse_go : ∀ (acc : List Nat) (t : Nat),
    (∀ d ∈ acc, is_ascii_digit d = true) →
    (t + 1) * 10 ^ acc.length ≤ 2 ^ 63 →
    List.foldl parseStepChecked (some t) acc = some (List.foldl parseStep t acc) ∧
    List.foldl parseStep t acc + 1 ≤ (t + 1) * 10 ^ acc.length := by
  intro acc
  induction acc with
  | nil =>
      intro t _ _
      simp
  | cons d ds ih =>
      intro t hdig hbound
      have hd : is_ascii_digit d = true := hdig d (by simp)
      have hd2 : 48 ≤ d ∧ d ≤ 57 := by
        unfold is_ascii_digit at hd
        simp at hd
        exact hd
      have hstep : parseStep t d + 1 ≤ (t + 1) * 10 := by
        unfold parseStep
        omega
      have hlen : (d :: ds).length = ds.length + 1 := by simp
      have hbound' : (t + 1) * 10 * 10 ^ ds.length ≤ 2 ^ 63 := by
        rw [hlen] at hbound
        calc (t + 1) * 10 * 10 ^ ds.length = (t + 1) * 10 ^ (ds.length + 1) := by ring
          _ ≤ 2 ^ 63 := hbound
      have hbound2 : (parseStep t d + 1) * 10 ^ ds.length ≤ 2 ^ 63 :=
        le_trans (Nat.mul_le_mul_right _ hstep) hbound'
      have hnoover : ¬ 2 ^ 63 ≤ parseStep t d := by
        have h1 : parseStep t d + 1 ≤ (parseStep t d + 1) * 10 ^ ds.length :=
          Nat.le_mul_of_pos_right _ (Nat.one_le_pow _ _ (by omega))
        omega
      have hstepc : parseStepChecked (some t) d = some (parseStep t d) := by
        unfold parseStepChecked
        rw [Option.some_bind, if_neg (show ¬ d < 48 by omega), if_neg hnoover]
      rw [List.foldl_cons, List.foldl_cons, hstepc]
      obtain ⟨ih1, ih2⟩ := ih (parseStep t d) (fun x hx => hdig x (by simp [hx])) hbound2
      refine ⟨ih1, ?_⟩
      calc List.foldl parseStep (parseStep t d) ds + 1
          ≤ (parseStep t d + 1) * 10 ^ ds.length := ih2
        _ ≤ (t + 1) * 10 * 10 ^ ds.length := Nat.mul_le_mul_right _ hstep
        _ = (t + 1) * 10 ^ (d :: ds).length := by rw [hlen]; ring

theorem parseAccumulatorChecked_eq (acc : List Nat)
    (hdig : ∀ d ∈ acc, is_ascii_digit d = true) (hlen : acc.length ≤ 13) :
    parseAccumulatorChecked acc = some (parseAccumulator acc) ∧
    parseAccumulator acc < 10 ^ 13 := by
  have h10 : (10 : Nat) ^ acc.length ≤ 10 ^ 13 := Nat.pow_le_pow_right (by omega) hlen
  have h13 : (10 : Nat) ^ 13 ≤ 2 ^ 63 := by norm_num
  have hb : (0 + 1) * 10 ^ acc.length ≤ 2 ^ 63 := by omega
  obtain ⟨h1, h2⟩ := parse_go acc 0 hdig hb
  refine ⟨h1, ?_⟩
  unfold parseAccumulator
  omega

theorem append_epoch_timestamp_checked_eq (acc : List Nat)
    (hdig : ∀ d ∈ acc, is_ascii_digit d = true)
    (hlen : acc.length = 13 ∨ acc.length = 10) :
    append_epoch_timestamp_checked acc = some (append_epoch_timestamp acc) := by
  obtain ⟨hp, hv⟩ := parseAccumulatorChecked_eq acc hdig (by omega)
  unfold append_epoch_timestamp_checked
  rw [hp]
  rcases hlen with h | h
  · rw [h, append_epoch_timestamp_ms acc h]
    have hm : parseAccumulator acc % 1000 < 1000 := Nat.mod_lt _ (by norm_num)
    have h32 : (2 : Nat) ^ 32 = 4294967296 := by norm_num
    have hbound : parseAccumulator acc % 1000 * 1000000 < 2 ^ 32 := by omega
    simp only [Option.some_bind]
    rw [if_pos hbound]
    exact rfl
  · rw [h, append_epoch_timestamp_sec acc h]
    exact rfl

theorem scanStepChecked_eq (s : List Nat × List Nat) (b : Nat)
    (hdig : ∀ d ∈ s.2, is_ascii_digit d = true) :
    scanStepChecked s b = some (scanStep s b) := by
  cases hd : is_ascii_digit b
  · cases ht : is_epoch_millisecond_timestamp s.2 || is_epoch_second_timestamp s.2
    · rw [scanStep_copy s b hd ht]
      unfold scanStepChecked
      rw [hd, ht]
      exact rfl
    · rw [scanStep_emit s b hd ht]
      unfold scanStepChecked
      rw [hd, ht]
      have hlen : s.2.length = 13 ∨ s.2.length = 10 := by
        have ht2 := ht
        simp [is_epoch_millisecond_timestamp, is_epoch_second_timestamp] at ht2
        exact ht2
      rw [append_epoch_timestamp_checked_eq s.2 hdig hlen]
      exact rfl
  · rw [scanStep_digit s b hd]
    unfold scanStepChecked
    rw [hd]
    exact rfl

theorem foldl_scanFoldStepChecked_eq : ∀ (xs : List Nat) (s : List Nat × List Nat),
    (∀ d ∈ s.2, is_ascii_digit d = true) →
    List.foldl scanFoldStepChecked (some s) xs = some (List.foldl scanStep s xs) := by
  intro xs
  induction xs with
  | nil =>
      intro s _
      simp
  | cons x xs ih =>
      intro s hdig
      rw [List.foldl_cons, List.foldl_cons]
      have h1 : scanFoldStepChecked (some s) x = some (scanStep s x) :=
        scanStepChecked_eq s x hdig
      rw [h1]
      refine ih (scanStep s x) ?_
      have h2 := foldl_scanStep_acc_digits [x] s.1 s.2 hdig
      simpa using h2

theorem finalizeChecked_eq (s : List Nat × List Nat) (e : Bool)
    (hdig : ∀ d ∈ s.2, is_ascii_digit d = true) :
    finalizeChecked s e = some (finalize s e) := by
  unfold finalizeChecked finalize
  cases he : e && (is_epoch_millisecond_timestamp s.2 || is_epoch_second_timestamp s.2)
  · exact rfl
  · have he2 := he
    simp only [Bool.and_eq_true] at he2
    have hlen : s.2.length = 13 ∨ s.2.length = 10 := by
      have ht2 := he2.2
      simp [is_epoch_millisecond_timestamp, is_epoch_second_timestamp] at ht2
      exact ht2
    rw [append_epoch_timestamp_checked_eq s.2 hdig hlen]
    exact rfl

/-- C8: the transformation is total and cannot fail on any byte buffer: the
variant that makes every Rust failure condition explicit (the `panic!` arms
of the formatter for digit counts other than 13 and 10, underflow of the
`next - 48` digit decoding, 64-bit overflow of the parsed value, and the
32-bit cast of the nanosecond component) always returns `some` of the total
function's result. -/
theorem c8_total_no_failure (input : List Nat) (eoi : Bool) :
    replace_epoch_timestamps_checked input eoi =
      some (replace_epoch_timestamps input eoi) := by
  unfold replace_epoch_timestamps_checked
  rw [foldl_scanFoldStepChecked_eq input ([], []) (by simp)]
  have hdig : ∀ d ∈ (List.foldl scanStep ([], []) input).2, is_ascii_digit d = true :=
    foldl_scanStep_acc_digits input [] [] (by simp)
  rw [Option.some_bind]
  rw [finalizeChecked_eq (List.foldl scanStep ([], []) input) eoi hdig]
  rw [Option.some_bind]
  rw [replace_eq]
  exact rfl

/-- C10: the returned leftover count is the length of the internal digit
accumulator, which merges digit runs that were never resolved: the input
"123456789!" ends in a non-digit byte yet reports leftover 9; the input
"12345678!9" has a trailing digit run of length 1 yet reports leftover 9;
and in "1!1530216070" the digits merge to an 11-digit accumulator so the
embedded exact 10-digit timestamp run goes unrecognized (the output is just
"!" and leftover is 11). -/
theorem c10_leftover_is_accumulator :
    (replace_epoch_timestamps (strBytes "123456789!") false).left_over_data = 9 ∧
    (replace_epoch_timestamps (strBytes "12345678!9") false).left_over_data = 9 ∧
    replace_epoch_timestamps (strBytes "1!1530216070") true = ⟨strBytes "!", 11⟩ := by
  decide

/-- C3 (code evaluation at the failing input): a resolved run of 9 digits is
NOT appended to the output as raw digit text — the digits are silently
dropped: on "123456789!" with end_of_input=true the code returns "!" with
leftover 9, not "123456789!". -/
theorem c3_digits_dropped :
    replace_epoch_timestamps (strBytes "123456789!") true = ⟨strBytes "!", 9⟩ ∧
    (replace_epoch_timestamps (strBytes "123456789!") true).data ≠
      strBytes "123456789!" := by
  decide

/-- C4 (code evaluation at the failing input): with end_of_input=true the
leftover count is NOT always 0: on "123456789" the unresolved 9-digit
accumulator is reported as leftover 9 (and, via the empty-output fallback,
the whole input is returned as data). -/
theorem c4_leftover_nonzero_at_eoi :
    replace_epoch_timestamps (strBytes "123456789") true =
      ⟨strBytes "123456789", 9⟩ := by
  decide

/-- C5 (code evaluation at failing inputs): idempotence on inputs with no
run of exactly 10 or 13 consecutive digits fails twice over: on
"a123456789b" (end_of_input=true) the 9-digit run is dropped, output "ab";
and on "12345!67890" the two 5-digit runs MERGE in the accumulator into a
10-digit value that is replaced, output "![2009-02-13 23:31:30 UTC]". -/
theorem c5_not_idempotent :
    replace_epoch_timestamps (strBytes "a123456789b") true = ⟨strBytes "ab", 9⟩ ∧
    replace_epoch_timestamps (strBytes "12345!67890") true =
      ⟨strBytes "![2009-02-13 23:31:30 UTC]", 0⟩ := by
  decide

/-- C2 (amended): with end_of_input=false, when the scan has emitted at
least one output byte, a trailing all-digit run is excluded from the output
and its length reported as the leftover count; but when the scan emits no
output bytes the code returns the whole input buffer as data, so for
"1530216070317" with end_of_input=false the output is "1530216070317"
(not the empty sequence), with leftover 13. -/
theorem c2_trailing_run_held_back :
    (∀ xs ds : List Nat, (∀ b ∈ ds, is_ascii_digit b = true) →
      (scanChunk xs).2 = [] → (scanChunk xs).1 ≠ [] →
      replace_epoch_timestamps (xs ++ ds) false = ⟨(scanChunk xs).1, ds.length⟩) ∧
    replace_epoch_timestamps (strBytes "1530216070317") false =
      ⟨strBytes "1530216070317", 13⟩ := by
  constructor
  · intro xs ds hds hacc hemit
    have hsc : scanChunk (xs ++ ds) = ((scanChunk xs).1, ds) := by
      rw [scanChunk_append_digits xs ds hds, hacc]
      simp
    have h1 : (finalize (scanChunk (xs ++ ds)) false).1 ≠ [] := by
      rw [finalize_false, hsc]
      exact hemit
    rw [replace_of_emitted_ne_nil _ _ h1, finalize_false, hsc]
  · decide

/-- C2 witness: a concrete instance of the amended statement, "a" followed by
the held-back trailing run "1234". -/
theorem c2_witness :
    replace_epoch_timestamps (strBytes "a" ++ strBytes "1234") false =
      ⟨(scanChunk (strBytes "a")).1, (strBytes "1234").length⟩ :=
  c2_trailing_run_held_back.1 (strBytes "a") (strBytes "1234")
    (by decide) (by decide) (by decide)

/-- C2 counterexample: on "1530216070317" with end_of_input=false the output
is not the empty byte sequence — it is the whole input. -/
theorem c2_counterexample :
    (replace_epoch_timestamps (strBytes "1530216070317") false).data ≠ [] ∧
    (replace_epoch_timestamps (strBytes "1530216070317") false).data =
      strBytes "1530216070317" := by
  decide

theorem append_singleton_ne_nil (xs : List Nat) (b : Nat) : xs ++ [b] ≠ [] := by
  intro h
  exact absurd (List.append_eq_nil.mp h).2 (List.cons_ne_nil b [])

theorem replace_terminated_run (ds : List Nat) (b : Nat) (eoi : Bool)
    (hds : ∀ d ∈ ds, is_ascii_digit d = true) (hb : is_ascii_digit b = false)
    (ht : (is_epoch_millisecond_timestamp ds || is_epoch_second_timestamp ds) = true) :
    replace_epoch_timestamps (ds ++ [b]) eoi =
      ⟨append_epoch_timestamp ds ++ [b], 0⟩ := by
  have hscan : scanChunk (ds ++ [b]) = (append_epoch_timestamp ds ++ [b], []) := by
    unfold scanChunk
    rw [List.foldl_append, foldl_scanStep_digits ds [] [] hds]
    simp only [List.nil_append, List.foldl_cons, List.foldl_nil]
    exact scanStep_emit ([], ds) b hb ht
  have hfin : finalize (scanChunk (ds ++ [b])) eoi =
      (append_epoch_timestamp ds ++ [b], []) := by
    rw [hscan]
    exact finalize_nil_acc _ eoi
  have hne : (finalize (scanChunk (ds ++ [b])) eoi).1 ≠ [] := by
    rw [hfin]
    exact append_singleton_ne_nil _ b
  rw [replace_of_emitted_ne_nil _ _ hne, hfin]
  exact rfl

/-- C7 (amended): a resolved run of exactly 10 digits terminated by a
non-digit byte is replaced by the bracketed UTC rendering of its value as
whole seconds with no fractional part, and a resolved run of exactly 13
digits by the rendering of value/1000 whole seconds with nanosecond
component (value mod 1000) * 1000000, which chrono displays as three
zero-padded millisecond digits when non-zero but OMITS entirely when
value mod 1000 = 0; in particular "1530216070317a" maps to
"[2018-06-28 20:01:10.317 UTC]a" and "1530216070a" to
"[2018-06-28 20:01:10 UTC]a", both with leftover 0, while "1530216070000"
at end of input maps to "[2018-06-28 20:01:10 UTC]" without ".000". -/
theorem c7_formatting :
    (∀ (ds : List Nat) (b : Nat) (eoi : Bool),
      ds.length = 10 → (∀ d ∈ ds, is_ascii_digit d = true) → is_ascii_digit b = false →
      replace_epoch_timestamps (ds ++ [b]) eoi =
        ⟨((91 :: utcTimestampDisplay (parseAccumulator ds) 0) ++ [93]) ++ [b], 0⟩) ∧
    (∀ (ds : List Nat) (b : Nat) (eoi : Bool),
      ds.length = 13 → (∀ d ∈ ds, is_ascii_digit d = true) → is_ascii_digit b = false →
      replace_epoch_timestamps (ds ++ [b]) eoi =
        ⟨((91 :: utcTimestampDisplay (parseAccumulator ds / 1000)
            (parseAccumulator ds % 1000 * 1000000)) ++ [93]) ++ [b], 0⟩) ∧
    replace_epoch_timestamps (strBytes "1530216070317a") false =
      ⟨strBytes "[2018-06-28 20:01:10.317 UTC]a", 0⟩ ∧
    replace_epoch_timestamps (strBytes "1530216070a") false =
      ⟨strBytes "[2018-06-28 20:01:10 UTC]a", 0⟩ ∧
    replace_epoch_timestamps (strBytes "1530216070000") true =
      ⟨strBytes "[2018-06-28 20:01:10 UTC]", 0⟩ := by
  refine ⟨?_, ?_, by decide, by decide, by decide⟩
  · intro ds b eoi h10 hds hb
    rw [replace_terminated_run ds b eoi hds hb (timestamp_pred_of_len10 ds h10),
      append_epoch_timestamp_sec ds h10]
  · intro ds b eoi h13 hds hb
    rw [replace_terminated_run ds b eoi hds hb (timestamp_pred_of_len13 ds h13),
      append_epoch_timestamp_ms ds h13]

/-- C7 witness: the 10-digit run "1530216070" terminated by the byte 97
('a'), at a concrete instance of the general statement. -/
theorem c7_witness :
    replace_epoch_timestamps (strBytes "1530216070" ++ [97]) false =
      ⟨((91 :: utcTimestampDisplay (parseAccumulator (strBytes "1530216070")) 0) ++ [93]) ++
        [97], 0⟩ :=
  c7_formatting.1 (strBytes "1530216070") 97 false (by decide) (by decide) (by decide)

/-- C7 counterexample: for the 13-digit value 1530216070000 (millisecond
remainder 0) the output is NOT "[2018-06-28 20:01:10.000 UTC]" — the
fractional part is omitted. -/
theorem c7_counterexample :
    (replace_epoch_timestamps (strBytes "1530216070000") true).data ≠
      strBytes "[2018-06-28 20:01:10.000 UTC]" ∧
    (replace_epoch_timestamps (strBytes "1530216070000") true).data =
      strBytes "[2018-06-28 20:01:10 UTC]" := by
  decide

/-- C9: for any chunk on which the byte-by-byte scan emits no output bytes
at all, the function returns a copy of the ENTIRE input buffer as its data
while reporting the accumulator length (the whole processed chunk, non-zero
for a non-empty chunk) as leftover — those bytes are counted both in the
returned data and in the leftover. -/
theorem c9_whole_buffer_copied (input : List Nat) (input_length : Nat) (eoi : Bool)
    (hne : List.take input_length input ≠ [])
    (hemit : (finalize (scanChunk (List.take input_length input)) eoi).1 = []) :
    replace_epoch_timestamps_in_buffer input input_length eoi =
      ⟨input, (List.take input_length input).length⟩ ∧
    (List.take input_length input).length ≠ 0 := by
  obtain ⟨hid, hs1⟩ := finalize_emitted_nil _ _ hemit
  have hacc : (scanChunk (List.take input_length input)).2 =
      [] ++ List.take input_length input :=
    foldl_scanStep_emitted_nil (List.take input_length input) [] hs1
  constructor
  · rw [replace_in_buffer_eq, hid, hs1, hacc]
    simp
  · intro h0
    exact hne (List.eq_nil_of_length_eq_zero h0)

/-- C9 witness: the buffer "12345" scanned only up to length 3 with no
output emitted: the whole 5-byte buffer comes back with leftover 3. -/
theorem c9_witness :
    replace_epoch_timestamps_in_buffer (strBytes "12345") 3 false =
      ⟨strBytes "12345", (List.take 3 (strBytes "12345")).length⟩ ∧
    (List.take 3 (strBytes "12345")).length ≠ 0 :=
  c9_whole_buffer_copied (strBytes "12345") 3 false (by decide) (by decide)

theorem processChunks_eq : ∀ (chunks : List (List Nat)) (carry : List Nat),
    (∀ b ∈ carry, is_ascii_digit b = true) →
    chunksOk carry chunks = true →
    processChunks carry chunks =
      (finalize (List.foldl scanStep ([], carry) chunks.join) true).1 ∧
    (chunks = [] ∨ (finalize (List.foldl scanStep ([], carry) chunks.join) true).1 ≠ []) := by
  intro chunks
  induction chunks with
  | nil =>
      intro carry hdig hok
      have hc : carry = [] := by simpa [chunksOk] using hok
      subst hc
      exact ⟨rfl, Or.inl rfl⟩
  | cons c rest ih =>
      intro carry hdig hok
      have hsc : scanChunk (carry ++ c) = List.foldl scanStep ([], carry) c := by
        unfold scanChunk
        rw [List.foldl_append, foldl_scanStep_digits carry [] [] hdig]
        rw [List.nil_append]
      cases rest with
      | nil =>
          have hne : (finalize (scanChunk (carry ++ c)) true).1 ≠ [] := by
            simpa [chunksOk] using hok
          have hjoin : List.join [c] = c ++ ([] : List Nat) := rfl
          have hc0 : c ++ ([] : List Nat) = c := by simp
          constructor
          · show (replace_epoch_timestamps (carry ++ c) true).data = _
            rw [replace_of_emitted_ne_nil _ _ hne, hjoin, hc0, ← hsc]
          · refine Or.inr ?_
            rw [hjoin, hc0, ← hsc]
            exact hne
      | cons c2 rest2 =>
          have hok2 := hok
          simp only [chunksOk, Bool.and_eq_true] at hok2
          obtain ⟨⟨hemitb, htailb⟩, hrest⟩ := hok2
          have hemit : (scanChunk (carry ++ c)).1 ≠ [] := by simpa using hemitb
          have htail : takeLast (scanChunk (carry ++ c)).2.length (carry ++ c) =
              (scanChunk (carry ++ c)).2 := by simpa using htailb
          have hdig2 : ∀ b ∈ (scanChunk (carry ++ c)).2, is_ascii_digit b = true := by
            rw [hsc]
            exact foldl_scanStep_acc_digits c [] carry hdig
          have hfe : (finalize (scanChunk (carry ++ c)) false).1 ≠ [] := by
            rw [finalize_false]
            exact hemit
          have hrep : replace_epoch_timestamps (carry ++ c) false =
              ⟨(scanChunk (carry ++ c)).1, (scanChunk (carry ++ c)).2.length⟩ := by
            rw [replace_of_emitted_ne_nil _ _ hfe, finalize_false]
          obtain ⟨ihEq, ihNe⟩ := ih (scanChunk (carry ++ c)).2 hdig2 hrest
          have hjoin : List.join (c :: c2 :: rest2) = c ++ List.join (c2 :: rest2) := rfl
          have hP := foldl_scanStep_shift (List.join (c2 :: rest2))
            (scanChunk (carry ++ c)).1 (scanChunk (carry ++ c)).2
          rw [Prod.mk.eta] at hP
          have hmain : (finalize (List.foldl scanStep ([], carry)
                (List.join (c :: c2 :: rest2))) true).1 =
              (scanChunk (carry ++ c)).1 ++
                (finalize (List.foldl scanStep ([], (scanChunk (carry ++ c)).2)
                  (List.join (c2 :: rest2))) true).1 := by
            rw [hjoin, List.foldl_append, ← hsc, hP, finalize_shift]
          constructor
          · simp only [processChunks]
            rw [hrep, hmain]
            show (scanChunk (carry ++ c)).1 ++
                processChunks (takeLast (scanChunk (carry ++ c)).2.length (carry ++ c))
                  (c2 :: rest2) = _
            rw [htail, ihEq]
          · refine Or.inr ?_
            rw [hmain]
            intro h
            exact hemit (List.append_eq_nil.mp h).1

/-- C1 (amended): splitting an input into chunks and re-feeding leftover
bytes reproduces the single-call result PROVIDED every call's scan emits at
least one output byte (so the whole-buffer-copy fallback branch is never
taken) and each non-final call's unresolved accumulator coincides with the
trailing leftover bytes of its input — the condition `chunksOk`. -/
theorem c1_chunked_equals_whole (chunks : List (List Nat))
    (hok : chunksOk [] chunks = true) :
    processChunks [] chunks = (replace_epoch_timestamps chunks.join true).data := by
  obtain ⟨hEq, hNe⟩ := processChunks_eq chunks [] (by simp) hok
  rw [hEq]
  rcases hNe with h | h
  · subst h
    decide
  · have h2 : (finalize (scanChunk (List.join chunks)) true).1 ≠ [] := h
    rw [replace_of_emitted_ne_nil _ _ h2]
    exact rfl

/-- C1 witness: the timestamp "1530216070317" straddling the boundary of the
chunks "x15302160" and "70317y" is still recognized, matching the
single-call output. -/
theorem c1_witness :
    chunksOk [] [strBytes "x15302160", strBytes "70317y"] = true ∧
    processChunks [] [strBytes "x15302160", strBytes "70317y"] =
      (replace_epoch_timestamps (List.join [strBytes "x15302160", strBytes "70317y"])
        true).data :=
  ⟨by decide, c1_chunked_equals_whole [strBytes "x15302160", strBytes "70317y"] (by decide)⟩

/-- C1 counterexample: the round trip fails as universally stated — for the
split ["1530216070", "a"] the first call emits nothing and the fallback
returns the whole chunk, duplicating the ten digits in the concatenation;
and for the split ["1!23", "a"] the accumulator (merged digits "123") is not
the trailing bytes "!23" the driver re-feeds, so the concatenation diverges
from the single-call output. -/
theorem c1_counterexample :
    processChunks [] [strBytes "1530216070", strBytes "a"] ≠
      (replace_epoch_timestamps (List.join [strBytes "1530216070", strBytes "a"])
        true).data ∧
    processChunks [] [strBytes "1!23", strBytes "a"] ≠
      (replace_epoch_timestamps (List.join [strBytes "1!23", strBytes "a"]) true).data := by
  decide

/-- C6: every byte held in the digit accumulator, at every point of the scan
of any chunk, is an ASCII digit; and whenever a step or the end-of-input
resolution appends a formatted timestamp to the output (the output grows by
more than the single copied byte), the accumulator is reset to empty. -/
theorem c6_accumulator_invariant :
    (∀ (input : List Nat) (i : Nat),
      ∀ b ∈ (scanChunk (List.take i input)).2, is_ascii_digit b = true) ∧
    (∀ (s : List Nat × List Nat) (b : Nat),
      s.1.length + 1 < (scanStep s b).1.length → (scanStep s b).2 = []) ∧
    (∀ (s : List Nat × List Nat) (e : Bool),
      s.1.length < (finalize s e).1.length → (finalize s e).2 = []) := by
  refine ⟨?_, ?_, ?_⟩
  · intro input i
    exact foldl_scanStep_acc_digits (List.take i input) [] [] (by simp)
  · intro s b hlen
    cases hd : is_ascii_digit b
    · cases ht : is_epoch_millisecond_timestamp s.2 || is_epoch_second_timestamp s.2
      · rw [scanStep_copy s b hd ht] at hlen
        simp at hlen
      · rw [scanStep_emit s b hd ht]
    · rw [scanStep_digit s b hd] at hlen
      simp at hlen
  · intro s e hlen
    revert hlen
    unfold finalize
    generalize append_epoch_timestamp s.2 = ts
    cases he : e && (is_epoch_millisecond_timestamp s.2 || is_epoch_second_timestamp s.2)
    · intro hlen
      simp at hlen
    · intro _
      simp

/-- C6 witness: a digit byte of a reachable accumulator, and a concrete
emitting step and emitting finalization, both ending with an empty
accumulator. -/
theorem c6_witness :
    is_ascii_digit 49 = true ∧
    (scanStep ([50], strBytes "1530216070") 97).2 = [] ∧
    (finalize ([50], strBytes "1530216070") true).2 = [] := by
  refine ⟨?_, ?_, ?_⟩
  · exact c6_accumulator_invariant.1 (strBytes "12x34") 2 49 (by decide)
  · exact c6_accumulator_invariant.2.1 ([50], strBytes "1530216070") 97 (by decide)
  · exact c6_accumulator_invariant.2.2 ([50], strBytes "1530216070") true (by decide)

example :
    replace_epoch_timestamps (strBytes "1530216070317a") false =
      ⟨strBytes "[2018-06-28 20:01:10.317 UTC]a", 0⟩ := by decide

example :
    replace_epoch_timestamps (strBytes "1530216070a") false =
      ⟨strBytes "[2018-06-28 20:01:10 UTC]a", 0⟩ := by decide

example :
    replace_epoch_timestamps (strBytes "1530216070317") true =
      ⟨strBytes "[2018-06-28 20:01:10.317 UTC]", 0⟩ := by decide

example :
    replace_epoch_timestamps (strBytes "prefix15302160") false =
      ⟨strBytes "prefix", 8⟩ := by decide

end Nail
